import Mathlib

/-!
# Verification of the finquery streaming query session engine

Shallow embedding of the streaming-query client core of the finquery
repository: the SSE frame decoder of `queryDocumentsStream` (`src/api.js`),
the session driver `handleSendMessage`, the selection operations
`handleSelectDoc` / `handleDelete` of `Dashboard.jsx`, and the submit guard
of `InputBar.handleSubmit`.  Each definition is a direct translation of the
corresponding JavaScript; theorems below settle the spec's claims about them.
-/

namespace FinQuery

/-! ## JavaScript values produced by JSON.parse

`JSON.parse` yields null, booleans, numbers, strings, arrays and objects.
The protocol's numeric fields (page numbers, result limits) are integers, so
numeric literals are modelled as integers; fractional or exponent parts make
the model reject the literal.  Object fields keep source order; a duplicate
key overwrites the earlier binding, as in JavaScript. -/

inductive Json where
  | null : Json
  | bool (b : Bool) : Json
  | num (n : Int) : Json
  | str (s : String) : Json
  | arr (elems : List Json) : Json
  | obj (fields : List (String × Json)) : Json
deriving Repr

/-- Skip JSON insignificant whitespace. -/
def skipWs : List Char → List Char
  | [] => []
  | c :: cs => if c = ' ' ∨ c = '\t' ∨ c = '\n' ∨ c = '\r' then skipWs cs else c :: cs

/-- Single-character JSON string escapes (`\uXXXX` is not needed by the
protocol and is rejected). -/
def escChar (e : Char) : Option Char :=
  if e = 'n' then some '\n'
  else if e = 't' then some '\t'
  else if e = 'r' then some '\r'
  else if e = 'b' then some (Char.ofNat 8)
  else if e = 'f' then some (Char.ofNat 12)
  else if e = '"' ∨ e = '\\' ∨ e = '/' then some e
  else none

/-- Parse the body of a JSON string literal, after the opening quote.
Returns the decoded string and the input after the closing quote. -/
def parseStringBody (acc : List Char) : List Char → Option (String × List Char)
  | [] => none
  | '"' :: rest => some (String.mk acc.reverse, rest)
  | '\\' :: rest =>
    match rest with
    | [] => none
    | e :: rest' =>
      match escChar e with
      | some c => parseStringBody (c :: acc) rest'
      | none => none
  | c :: rest => parseStringBody (c :: acc) rest

/-- Take a maximal run of decimal digits. -/
def takeDigits (acc : List Char) : List Char → List Char × List Char
  | [] => (acc.reverse, [])
  | c :: cs => if c.isDigit then takeDigits (c :: acc) cs else (acc.reverse, c :: cs)

/-- Numeric value of a digit run. -/
def digitsVal (ds : List Char) : Nat :=
  ds.foldl (fun n c => 10 * n + (c.toNat - '0'.toNat)) 0

/-- Parse a JSON integer literal (optional minus sign, no leading zeros;
fractional/exponent parts are rejected, see module comment). -/
def parseIntLit (cs : List Char) : Option (Int × List Char) :=
  let (neg, cs') := match cs with
    | '-' :: rest => (true, rest)
    | _ => (false, cs)
  match takeDigits [] cs' with
  | ([], _) => none
  | (ds, rest) =>
    if ds.length > 1 ∧ ds.headD '0' = '0' then none
    else
      match rest with
      | '.' :: _ => none
      | 'e' :: _ => none
      | 'E' :: _ => none
      | _ => some (if neg then -(digitsVal ds : Int) else (digitsVal ds : Int), rest)

mutual

/-- Parse one JSON value.  `fuel` strictly exceeds the remaining input
length, so it never runs out on inputs the parser accepts. -/
def parseValue : Nat → List Char → Option (Json × List Char)
  | 0, _ => none
  | Nat.succ fuel, cs =>
    match skipWs cs with
    | [] => none
    | '"' :: rest =>
      match parseStringBody [] rest with
      | some (s, rest') => some (Json.str s, rest')
      | none => none
    | '{' :: rest => parseMembers fuel (skipWs rest) []
    | '[' :: rest => parseElems fuel (skipWs rest) []
    | 't' :: 'r' :: 'u' :: 'e' :: rest => some (Json.bool true, rest)
    | 'f' :: 'a' :: 'l' :: 's' :: 'e' :: rest => some (Json.bool false, rest)
    | 'n' :: 'u' :: 'l' :: 'l' :: rest => some (Json.null, rest)
    | cs' =>
      match parseIntLit cs' with
      | some (n, rest) => some (Json.num n, rest)
      | none => none

/-- Parse object members after `{` (with leading whitespace consumed),
accumulating parsed fields in `acc`. -/
def parseMembers : Nat → List Char → List (String × Json) → Option (Json × List Char)
  | 0, _, _ => none
  | Nat.succ fuel, cs, acc =>
    match cs with
    | '}' :: rest => if acc.isEmpty then some (Json.obj [], rest) else none
    | '"' :: rest =>
      match parseStringBody [] rest with
      | none => none
      | some (k, rest') =>
        match skipWs rest' with
        | ':' :: rest'' =>
          match parseValue fuel rest'' with
          | none => none
          | some (v, rest''') =>
            match skipWs rest''' with
            | ',' :: more => parseMembers fuel (skipWs more) (acc ++ [(k, v)])
            | '}' :: more => some (Json.obj (acc ++ [(k, v)]), more)
            | _ => none
        | _ => none
    | _ => none

/-- Parse array elements after `[` (with leading whitespace consumed). -/
def parseElems : Nat → List Char → List Json → Option (Json × List Char)
  | 0, _, _ => none
  | Nat.succ fuel, cs, acc =>
    match cs with
    | ']' :: rest => if acc.isEmpty then some (Json.arr [], rest) else none
    | _ =>
      match parseValue fuel cs with
      | none => none
      | some (v, rest) =>
        match skipWs rest with
        | ',' :: more => parseElems fuel (skipWs more) (acc ++ [v])
        | ']' :: more => some (Json.arr (acc ++ [v]), more)
        | _ => none

end

/-- Model of `JSON.parse(s)`: parse one value and require only whitespace
after it; `none` is a thrown `SyntaxError`. -/
def jsonParse (s : String) : Option Json :=
  match parseValue (s.length + 1) s.data with
  | some (j, rest) => if (skipWs rest).isEmpty then some j else none
  | none => none

/-- JavaScript property access `j.k` on a parse result: `none` plays the
role of `undefined`.  Later duplicate keys win, as in `JSON.parse`. -/
def getField (j : Json) (k : String) : Option Json :=
  match j with
  | Json.obj fields => fields.foldl (fun acc p => if p.1 = k then some p.2 else acc) none
  | _ => none

/-! ## JavaScript string coercion

`Dashboard.jsx` appends `lastMsg.content + token`; when `token` is not a
string, JavaScript coerces it.  `none` models `undefined`. -/

mutual

/-- JavaScript `String(v)` on a JSON value. -/
def jsToString : Json → String
  | Json.null => "null"
  | Json.bool true => "true"
  | Json.bool false => "false"
  | Json.num n => toString n
  | Json.str s => s
  | Json.arr xs => String.intercalate "," (jsElemStrings xs)
  | Json.obj _ => "[object Object]"

/-- `Array.prototype.join` renders `null` elements as the empty string. -/
def jsElemStrings : List Json → List String
  | [] => []
  | Json.null :: rest => "" :: jsElemStrings rest
  | Json.bool b :: rest => jsToString (Json.bool b) :: jsElemStrings rest
  | Json.num n :: rest => jsToString (Json.num n) :: jsElemStrings rest
  | Json.str s :: rest => jsToString (Json.str s) :: jsElemStrings rest
  | Json.arr xs :: rest => jsToString (Json.arr xs) :: jsElemStrings rest
  | Json.obj fs :: rest => jsToString (Json.obj fs) :: jsElemStrings rest

end

/-- Coercion applied when a value (possibly `undefined`) is concatenated to
a string, as in `lastMsg.content + token`. -/
def jsConcatString : Option Json → String
  | none => "undefined"
  | some j => jsToString j

/-! ## Frame Decoder (`queryDocumentsStream` read loop, `src/api.js`)

The read loop decodes each delivered chunk, splits it on `'\n'`, keeps the
lines with the `data: ` prefix, and parses each with `JSON.parse`,
dispatching on `data.type`.  There is no carry buffer between chunks. -/

/-- `String.prototype.split('\n')` on the character list. -/
def splitOnNl (acc : List Char) : List Char → List (List Char)
  | [] => [acc.reverse]
  | c :: rest =>
    if c = '\n' then acc.reverse :: splitOnNl [] rest else splitOnNl (c :: acc) rest

/-- The lines of one decoded chunk: `text.split('\n')`. -/
def chunkLines (chunk : String) : List String :=
  (splitOnNl [] chunk.data).map String.mk

/-- `a.startsWith(b)` as list-prefix test. -/
def startsWithL : List Char → List Char → Bool
  | [], _ => true
  | _ :: _, [] => false
  | p :: ps, c :: cs => p = c && startsWithL ps cs

/-- `line.startsWith('data: ')`. -/
def hasDataMarker (line : String) : Bool :=
  startsWithL "data: ".data line.data

/-- A decoded protocol frame: the invocation of one of the two callbacks.
`token` carries `data.content` and `done` carries `data.sources`; either
field may be absent (`undefined`), hence `Option Json`. -/
inductive ProtocolFrame where
  | token (content : Option Json) : ProtocolFrame
  | done (sources : Option Json) : ProtocolFrame
deriving Repr

/-- Body of the per-line loop: `JSON.parse(line.slice(6))`, then dispatch on
`data.type`.  `none` covers both a parse failure (caught and logged) and an
unrecognized discriminator (no branch taken). -/
def parseFrameData (line : String) : Option ProtocolFrame :=
  match jsonParse (String.mk (line.data.drop 6)) with
  | none => none
  | some data =>
    match getField data "type" with
    | some (Json.str t) =>
      if t = "token" then some (ProtocolFrame.token (getField data "content"))
      else if t = "done" then some (ProtocolFrame.done (getField data "sources"))
      else none
    | _ => none

/-- Frames produced from one chunk:
`text.split('\n').filter(line => line.startsWith('data: '))`, then the
parse-and-dispatch loop over the kept lines. -/
def chunkFrames (chunk : String) : List ProtocolFrame :=
  ((chunkLines chunk).filter hasDataMarker).filterMap parseFrameData

/-- Frames produced by the whole read loop over the delivered chunks, in
emission order. -/
def decodeChunks (chunks : List String) : List ProtocolFrame :=
  (chunks.map chunkFrames).flatten

/-- Per-line decoder semantics: a line without the `data: ` prefix yields
nothing; otherwise it yields whatever the parse-and-dispatch step yields. -/
def lineFrame (line : String) : Option ProtocolFrame :=
  if hasDataMarker line then parseFrameData line else none

/-! ## Transcript model (`Dashboard.jsx`) -/

inductive Role where
  | user : Role
  | assistant : Role
deriving Repr, DecidableEq

/-- One transcript entry.  The user message object carries no `sources`
field (`undefined`, modelled `none`); the assistant placeholder starts with
`sources: []`. -/
structure Message where
  role : Role
  content : String
  sources : Option Json
deriving Repr

/-- The `userMessage` object of `handleSendMessage`. -/
def userMessage (q : String) : Message :=
  { role := Role.user, content := q, sources := none }

/-- The empty assistant placeholder appended before streaming starts. -/
def emptyAssistant : Message :=
  { role := Role.assistant, content := "", sources := some (Json.arr []) }

/-- The fixed apology string of the catch block. -/
def apologyText : String :=
  "Sorry, an error occurred while processing your question. Please try again."

/-- `onToken` / `onDone` applied to the transcript: replace the last entry
(`[...prev.slice(0, -1), updated]`).  The transcript is never empty when a
callback fires (two messages were appended beforehand). -/
def applyFrame (msgs : List Message) (f : ProtocolFrame) : List Message :=
  match msgs.getLast? with
  | none => msgs
  | some lastMsg =>
    match f with
    | ProtocolFrame.token c =>
      msgs.dropLast ++ [{ lastMsg with content := lastMsg.content ++ jsConcatString c }]
    | ProtocolFrame.done s =>
      msgs.dropLast ++ [{ lastMsg with sources := s }]

/-- Apply the decoded frames in emission order. -/
def applyFrames (msgs : List Message) (fs : List ProtocolFrame) : List Message :=
  fs.foldl applyFrame msgs

/-- The catch block of `handleSendMessage`: if the last message has falsy
(empty) content, replace it with the apology string. -/
def applyApologyIfEmpty (msgs : List Message) : List Message :=
  match msgs.getLast? with
  | none => msgs
  | some lastMsg =>
    if lastMsg.content = "" then
      msgs.dropLast ++ [{ lastMsg with content := apologyText }]
    else msgs

/-! ## Transport environment

One streaming exchange, seen from the client: whether the `fetch` response
was ok, the text chunks delivered by `reader.read()` before the stream
ended, and whether the stream ended by a thrown read error rather than a
clean end-of-stream. -/

structure Transport where
  openOk : Bool
  chunks : List String
  readError : Bool

/-- The outgoing body of the streaming query request
(`queryDocumentsStream`, `src/api.js`). -/
structure QueryRequest where
  question : String
  document_names : Option (List String)
  n_results : Nat
deriving Repr, DecidableEq

/-- `Dashboard.jsx` line 101 and the `fetch` body: an empty selection is
sent as `null` (unscoped), a non-empty one as the selected names. -/
def buildRequest (question : String) (selectedDocs : List String) : QueryRequest :=
  { question := question
    document_names := if selectedDocs.length > 0 then some selectedDocs else none
    n_results := 5 }

/-- `handleSendMessage` (`Dashboard.jsx`): append the user message and the
empty assistant placeholder, issue the streaming request built from the
current selection, and, if the transport opens, apply every decoded frame;
a thrown error (open failure, or a read error after the delivered chunks)
lands in the catch block, which applies the apology only when no content
was accumulated.  Returns the final transcript and the request sent. -/
def handleSendMessage (msgs : List Message) (selectedDocs : List String)
    (question : String) (t : Transport) : List Message × QueryRequest :=
  let req := buildRequest question selectedDocs
  let msgs1 := msgs ++ [userMessage question, emptyAssistant]
  if t.openOk then
    let msgs2 := applyFrames msgs1 (decodeChunks t.chunks)
    (if t.readError then applyApologyIfEmpty msgs2 else msgs2, req)
  else
    (applyApologyIfEmpty msgs1, req)

/-! ## Selection Set (`Dashboard.jsx`) -/

def MAX_SELECTED_DOCS : Nat := 2

/-- Outcome of `handleSelectDoc`: removed an already-selected document,
added a new one, or rejected the add at capacity (the `toast.error`
branch). -/
inductive ToggleResult where
  | removed : ToggleResult
  | added : ToggleResult
  | capacityExceeded : ToggleResult
deriving Repr, DecidableEq

/-- `handleSelectDoc`: toggle a document in the ordered selection. -/
def handleSelectDoc (selectedDocs : List String) (docName : String) :
    List String × ToggleResult :=
  if selectedDocs.contains docName then
    (selectedDocs.filter (fun name => name ≠ docName), ToggleResult.removed)
  else if MAX_SELECTED_DOCS ≤ selectedDocs.length then
    (selectedDocs, ToggleResult.capacityExceeded)
  else
    (selectedDocs ++ [docName], ToggleResult.added)

/-- The selection after a sequence of toggle calls starting empty. -/
def runToggles (ops : List String) : List String :=
  ops.foldl (fun sel doc => (handleSelectDoc sel doc).1) []

/-- `handleDelete`'s effect on the selection: on a successful remote
delete, the name is filtered out; a failed delete leaves it untouched. -/
def handleDelete (deleteSucceeded : Bool) (selectedDocs : List String)
    (docName : String) : List String :=
  if deleteSucceeded then selectedDocs.filter (fun name => name ≠ docName)
  else selectedDocs

/-! ## Submit guard (`InputBar.handleSubmit`) -/

/-- `InputBar.handleSubmit`: `onSendMessage` fires only when the trimmed
input is non-empty and the bar is not disabled (`disabled = isLoading`,
true exactly while an exchange is in flight).  Returns the transcript and
whether the submission was accepted; a busy rejection is the dropped
request of the spec's `SessionBusy`. -/
def inputBarSubmit (msgs : List Message) (selDocs : List String)
    (input : String) (disabled : Bool) (t : Transport) : List Message × Bool :=
  if input.trim ≠ "" ∧ disabled = false then
    ((handleSendMessage msgs selDocs input t).1, true)
  else
    (msgs, false)

/-! ## Spec-side Frame Decoder

Modelled from the spec: spec section 4.2 prescribes a carry buffer that the
read loop of `queryDocumentsStream` does not implement — each incoming chunk
is appended to the carry, the result is split on line boundaries, the
trailing partial line is held back as the new carry, and each complete line
goes through the same prefix-filter / parse / dispatch step. -/

def specDecodeAux (carry : String) : List String → List ProtocolFrame
  | [] => []
  | chunk :: rest =>
    let pieces := chunkLines (carry ++ chunk)
    pieces.dropLast.filterMap lineFrame ++ specDecodeAux (pieces.getLastD "") rest

/-- Modelled from the spec: the carry-buffer Frame Decoder of spec
section 4.2, started with an empty carry. -/
def specDecodeChunks (chunks : List String) : List ProtocolFrame :=
  specDecodeAux "" chunks

/-! ## Derived projections used in statements -/

/-- The text a `Token` frame contributes to the assistant content
(`lastMsg.content + token`); `Done` frames contribute none. -/
def tokenText : ProtocolFrame → Option String
  | ProtocolFrame.token c => some (jsConcatString c)
  | ProtocolFrame.done _ => none

/-- Concatenation, in arrival order, of the text contributed by the `Token`
frames of a frame sequence. -/
def tokenConcat : List ProtocolFrame → String
  | [] => ""
  | ProtocolFrame.token c :: fs => jsConcatString c ++ tokenConcat fs
  | ProtocolFrame.done _ :: fs => tokenConcat fs

/-- Content of the last transcript entry (transcripts below are never
empty where this is used). -/
def lastContent (msgs : List Message) : String :=
  (msgs.getLastD { role := Role.assistant, content := "", sources := none }).content

/-- Net effect of one frame on the active (last) assistant message. -/
def frameUpd (m : Message) : ProtocolFrame → Message
  | ProtocolFrame.token c => { m with content := m.content ++ jsConcatString c }
  | ProtocolFrame.done s => { m with sources := s }

/-- The assistant message a session leaves behind, as a function of the
transport alone (proved below to be the last entry `handleSendMessage`
produces). -/
def sessionFinalMsg (t : Transport) : Message :=
  if t.openOk then
    let m := (decodeChunks t.chunks).foldl frameUpd emptyAssistant
    if t.readError then
      (if m.content = "" then { m with content := apologyText } else m)
    else m
  else { emptyAssistant with content := apologyText }

/-! ## Structural lemmas -/

theorem applyFrame_concat (msgs : List Message) (m : Message) (f : ProtocolFrame) :
    applyFrame (msgs ++ [m]) f = msgs ++ [frameUpd m f] := by
  cases f <;>
    simp [applyFrame, frameUpd, List.getLast?_concat, List.dropLast_concat]

theorem applyFrames_concat (fs : List ProtocolFrame) (msgs : List Message) (m : Message) :
    applyFrames (msgs ++ [m]) fs = msgs ++ [fs.foldl frameUpd m] := by
  induction fs generalizing m with
  | nil => rfl
  | cons f fs ih =>
    simp only [applyFrames, List.foldl_cons] at *
    rw [applyFrame_concat, ih]

theorem applyApologyIfEmpty_concat (msgs : List Message) (m : Message) :
    applyApologyIfEmpty (msgs ++ [m]) =
      msgs ++ [if m.content = "" then { m with content := apologyText } else m] := by
  by_cases h : m.content = "" <;>
    simp [applyApologyIfEmpty, List.getLast?_concat, List.dropLast_concat, h]

theorem foldl_frameUpd_content (fs : List ProtocolFrame) (m : Message) :
    (fs.foldl frameUpd m).content = m.content ++ tokenConcat fs := by
  induction fs generalizing m with
  | nil => simp [tokenConcat]
  | cons f fs ih =>
    cases f with
    | token c =>
      simp only [List.foldl_cons, ih, frameUpd, tokenConcat]
      rw [String.append_assoc]
    | done s => simp only [List.foldl_cons, ih, frameUpd, tokenConcat]

theorem foldl_frameUpd_role (fs : List ProtocolFrame) (m : Message) :
    (fs.foldl frameUpd m).role = m.role := by
  induction fs generalizing m with
  | nil => rfl
  | cons f fs ih => cases f <;> simp only [List.foldl_cons, ih, frameUpd]

theorem handleSendMessage_shape (msgs : List Message) (sel : List String)
    (q : String) (t : Transport) :
    (handleSendMessage msgs sel q t).1 = msgs ++ [userMessage q, sessionFinalMsg t] := by
  obtain ⟨openOk, chunks, readError⟩ := t
  have hsplit : msgs ++ [userMessage q, emptyAssistant] =
      (msgs ++ [userMessage q]) ++ [emptyAssistant] := by simp
  cases openOk with
  | false =>
    have h1 : (handleSendMessage msgs sel q ⟨false, chunks, readError⟩).1
        = applyApologyIfEmpty (msgs ++ [userMessage q, emptyAssistant]) := rfl
    rw [h1, hsplit, applyApologyIfEmpty_concat]
    simp [sessionFinalMsg, emptyAssistant]
  | true =>
    cases readError with
    | false =>
      have h1 : (handleSendMessage msgs sel q ⟨true, chunks, false⟩).1
          = applyFrames (msgs ++ [userMessage q, emptyAssistant]) (decodeChunks chunks) := rfl
      rw [h1, hsplit, applyFrames_concat]
      simp [sessionFinalMsg]
    | true =>
      have h1 : (handleSendMessage msgs sel q ⟨true, chunks, true⟩).1
          = applyApologyIfEmpty
              (applyFrames (msgs ++ [userMessage q, emptyAssistant]) (decodeChunks chunks)) := rfl
      rw [h1, hsplit, applyFrames_concat, applyApologyIfEmpty_concat]
      simp [sessionFinalMsg]

theorem lastContent_concat (msgs : List Message) (m : Message) :
    lastContent (msgs ++ [m]) = m.content := by
  simp [lastContent, List.getLastD_concat]

theorem sessionFinalMsg_role (t : Transport) : (sessionFinalMsg t).role = Role.assistant := by
  obtain ⟨openOk, chunks, readError⟩ := t
  cases openOk with
  | false => rfl
  | true =>
    have hrole : ((decodeChunks chunks).foldl frameUpd emptyAssistant).role = Role.assistant :=
      foldl_frameUpd_role (decodeChunks chunks) emptyAssistant
    cases readError with
    | false => simpa [sessionFinalMsg] using hrole
    | true =>
      by_cases hc : ((decodeChunks chunks).foldl frameUpd emptyAssistant).content = "" <;>
        simp [sessionFinalMsg, hc, hrole]

/-! ## Selection-set lemmas -/

theorem toggle_step_inv (sel : List String) (d : String)
    (hlen : sel.length ≤ MAX_SELECTED_DOCS) (hnd : sel.Nodup) :
    (handleSelectDoc sel d).1.length ≤ MAX_SELECTED_DOCS ∧ (handleSelectDoc sel d).1.Nodup := by
  by_cases hmem : d ∈ sel
  · have hc : sel.contains d = true := by simp [hmem]
    simp only [handleSelectDoc, hc, if_true]
    exact ⟨le_trans (List.length_filter_le _ _) hlen, hnd.filter _⟩
  · have hc : sel.contains d = false := by simp [hmem]
    simp only [handleSelectDoc, hc, Bool.false_eq_true, if_false]
    by_cases hcap : MAX_SELECTED_DOCS ≤ sel.length
    · simp only [hcap, if_true]
      exact ⟨hlen, hnd⟩
    · simp only [hcap, if_false]
      constructor
      · simp only [List.length_append, List.length_cons, List.length_nil]
        simp only [MAX_SELECTED_DOCS] at *
        omega
      · simp [List.nodup_append, hnd, hmem]

theorem foldl_toggle_inv : ∀ (ops sel : List String),
    sel.length ≤ MAX_SELECTED_DOCS → sel.Nodup →
    (ops.foldl (fun s d => (handleSelectDoc s d).1) sel).length ≤ MAX_SELECTED_DOCS ∧
      (ops.foldl (fun s d => (handleSelectDoc s d).1) sel).Nodup
  | [], _, hlen, hnd => ⟨hlen, hnd⟩
  | d :: ops, sel, hlen, hnd => by
    have hstep := toggle_step_inv sel d hlen hnd
    simpa using foldl_toggle_inv ops (handleSelectDoc sel d).1 hstep.1 hstep.2

theorem runToggles_inv (ops : List String) :
    (runToggles ops).length ≤ MAX_SELECTED_DOCS ∧ (runToggles ops).Nodup :=
  foldl_toggle_inv ops [] (by simp [MAX_SELECTED_DOCS]) List.nodup_nil

theorem filter_ne_eq_erase (sel : List String) (d : String) (hnd : sel.Nodup) :
    sel.filter (fun name => name ≠ d) = sel.erase d := by
  rw [hnd.erase_eq_filter d]
  exact List.filter_congr (fun x _ => by by_cases h : x = d <;> simp [h, bne])

theorem length_filter_ne_of_nodup (sel : List String) (d : String)
    (hnd : sel.Nodup) (hmem : d ∈ sel) :
    (sel.filter (fun name => name ≠ d)).length + 1 = sel.length := by
  rw [filter_ne_eq_erase sel d hnd, List.length_erase_of_mem hmem]
  have hpos : 1 ≤ sel.length := List.length_pos.2 (by rintro rfl; simp at hmem)
  omega

theorem toggle_present_removes (sel : List String) (d : String)
    (hnd : sel.Nodup) (hmem : d ∈ sel) :
    (handleSelectDoc sel d).2 = ToggleResult.removed ∧
      d ∉ (handleSelectDoc sel d).1 ∧
      (handleSelectDoc sel d).1.length + 1 = sel.length := by
  have hc : sel.contains d = true := by simp [hmem]
  have h1 : handleSelectDoc sel d
      = (sel.filter (fun name => name ≠ d), ToggleResult.removed) := by
    simp only [handleSelectDoc, hc, if_true]
  rw [h1]
  refine ⟨rfl, ?_, length_filter_ne_of_nodup sel d hnd hmem⟩
  simp [List.mem_filter]

theorem toggle_at_capacity (sel : List String) (d : String)
    (hmem : d ∉ sel) (hlen : sel.length = MAX_SELECTED_DOCS) :
    handleSelectDoc sel d = (sel, ToggleResult.capacityExceeded) := by
  have hc : sel.contains d = false := by simp [hmem]
  simp [handleSelectDoc, hc, hlen, hmem]

/-! ## Claim theorems -/

/-- C4: while an exchange is in flight (`disabled = isLoading = true`),
submitting through the input bar is rejected — `onSendMessage` never fires,
the request is dropped, and the transcript is returned exactly as it was.
This dropped request is the engine's `SessionBusy` rejection. -/
theorem c4_submit_while_busy_rejected (msgs : List Message) (sel : List String)
    (input : String) (t : Transport) :
    inputBarSubmit msgs sel input true t = (msgs, false) := by
  simp [inputBarSubmit]

/-- C6: starting from the empty selection, any sequence of toggles keeps
the selection within `MAX_SELECTED_DOCS = 2` and duplicate-free; toggling a
present id removes it and shrinks the selection by exactly one; toggling a
fresh id at capacity is rejected with the selection unchanged; and the
`a.pdf`/`b.pdf`/`c.pdf` scenario behaves as specified. -/
theorem c6_selection_capacity_invariant :
    (∀ ops : List String,
      (runToggles ops).length ≤ MAX_SELECTED_DOCS ∧ (runToggles ops).Nodup) ∧
    (∀ (ops : List String) (d : String), d ∈ runToggles ops →
      (handleSelectDoc (runToggles ops) d).2 = ToggleResult.removed ∧
      d ∉ (handleSelectDoc (runToggles ops) d).1 ∧
      (handleSelectDoc (runToggles ops) d).1.length + 1 = (runToggles ops).length) ∧
    (∀ (ops : List String) (d : String), d ∉ runToggles ops →
      (runToggles ops).length = MAX_SELECTED_DOCS →
      handleSelectDoc (runToggles ops) d = (runToggles ops, ToggleResult.capacityExceeded)) ∧
    (runToggles ["a.pdf", "b.pdf"] = ["a.pdf", "b.pdf"] ∧
      handleSelectDoc ["a.pdf", "b.pdf"] "c.pdf"
        = (["a.pdf", "b.pdf"], ToggleResult.capacityExceeded)) := by
  refine ⟨runToggles_inv, ?_, ?_, by decide, by decide⟩
  · intro ops d hmem
    exact toggle_present_removes (runToggles ops) d (runToggles_inv ops).2 hmem
  · intro ops d hmem hlen
    exact toggle_at_capacity (runToggles ops) d hmem hlen

/-- Witness for C6 at the concrete scenario-B selection. -/
theorem c6_selection_capacity_invariant_witness :
    (handleSelectDoc (runToggles ["a.pdf", "b.pdf"]) "a.pdf").1.length + 1
      = (runToggles ["a.pdf", "b.pdf"]).length :=
  (c6_selection_capacity_invariant.2.1 ["a.pdf", "b.pdf"] "a.pdf" (by decide)).2.2

/-- C10: a successful document deletion filters the deleted name out of the
selection, so the selection never retains the deleted document. -/
theorem c10_delete_prunes_selection (sel : List String) (doc : String) :
    handleDelete true sel doc = sel.filter (fun name => name ≠ doc) ∧
      doc ∉ handleDelete true sel doc := by
  refine ⟨rfl, ?_⟩
  simp [handleDelete, List.mem_filter]

/-! ## Stream-session lemmas -/

theorem lastContent_append_two (msgs : List Message) (a b : Message) :
    lastContent (msgs ++ [a, b]) = b.content := by
  have h : msgs ++ [a, b] = (msgs ++ [a]) ++ [b] := by simp
  rw [h, lastContent_concat]

theorem foldl_frameUpd_emptyAssistant_content (chunks : List String) :
    ((decodeChunks chunks).foldl frameUpd emptyAssistant).content
      = tokenConcat (decodeChunks chunks) := by
  rw [foldl_frameUpd_content]
  rfl

theorem sessionFinalMsg_readError_content (chunks : List String) :
    (sessionFinalMsg { openOk := true, chunks := chunks, readError := true }).content
      = (if tokenConcat (decodeChunks chunks) = "" then apologyText
         else tokenConcat (decodeChunks chunks)) := by
  have hm := foldl_frameUpd_emptyAssistant_content chunks
  by_cases hc : tokenConcat (decodeChunks chunks) = "" <;>
    simp [sessionFinalMsg, hm, hc]

/-- The per-chunk loop keeps exactly the frames of the lines that pass the
`data: ` filter, which is the per-line semantics `lineFrame`. -/
theorem filter_then_dispatch (lines : List String) :
    (lines.filter hasDataMarker).filterMap parseFrameData = lines.filterMap lineFrame := by
  induction lines with
  | nil => rfl
  | cons l ls ih =>
    by_cases h : hasDataMarker l
    · cases hp : parseFrameData l <;>
        simp [List.filter_cons, h, lineFrame, hp, ih]
    · simp [List.filter_cons, h, lineFrame, ih]

/-! ## Claim theorems for the Frame Decoder and session -/

/-- C1: the decoder of `queryDocumentsStream` is NOT boundary-independent.
The same byte stream `data: \x7b"type":"token","content":"Hi"\x7d\n`
delivered as one chunk yields a `Token` frame, but delivered split mid-line
as two chunks yields no frame at all, because the read loop keeps no carry
buffer between chunks.  The carry-buffer decoder prescribed by the spec
yields the `Token` frame under both chunkings. -/
theorem c1_decoder_boundary_dependent :
    ("data: \x7b\"type\":\"tok" ++ "en\",\"content\":\"Hi\"\x7d\n"
        = "data: \x7b\"type\":\"token\",\"content\":\"Hi\"\x7d\n") ∧
    decodeChunks ["data: \x7b\"type\":\"token\",\"content\":\"Hi\"\x7d\n"]
        = [ProtocolFrame.token (some (Json.str "Hi"))] ∧
    decodeChunks ["data: \x7b\"type\":\"tok", "en\",\"content\":\"Hi\"\x7d\n"] = [] ∧
    specDecodeChunks ["data: \x7b\"type\":\"token\",\"content\":\"Hi\"\x7d\n"]
        = [ProtocolFrame.token (some (Json.str "Hi"))] ∧
    specDecodeChunks ["data: \x7b\"type\":\"tok", "en\",\"content\":\"Hi\"\x7d\n"]
        = [ProtocolFrame.token (some (Json.str "Hi"))] :=
  ⟨rfl, rfl, rfl, rfl, rfl⟩

/-- C2: Scenario C fails on the code.  With the frame split mid-line across
the first two chunks, the token frame is dropped: the final assistant
message has content `""` (not `"Hi"`), though the sources of the intact
`done` frame do arrive. -/
theorem c2_scenario_c_split_frame_dropped :
    ((handleSendMessage [] [] "q"
        { openOk := true,
          chunks := ["data: \x7b\"type\":\"tok", "en\",\"content\":\"Hi\"\x7d\n",
                     "data: \x7b\"type\":\"done\",\"sources\":[\x7b\"page\":2\x7d]\x7d\n"],
          readError := false }).1
      = [userMessage "q",
         { role := Role.assistant, content := "",
           sources := some (Json.arr [Json.obj [("page", Json.num 2)]]) }]) ∧
    ("" : String) ≠ "Hi" :=
  ⟨rfl, by decide⟩

/-- C3 counterexample: Scenario D fails on the code.  A transport that
opens, delivers zero bytes and closes cleanly throws nothing, so the catch
block never runs: the final assistant content is the empty string, not the
apology string. -/
theorem c3_scenario_d_counterexample :
    ((handleSendMessage [] [] "q"
        { openOk := true, chunks := [], readError := false }).1
      = [userMessage "q", emptyAssistant]) ∧
    emptyAssistant.content = "" ∧ apologyText ≠ "" :=
  ⟨rfl, rfl, by decide⟩

/-- C3 amended: a clean zero-byte close leaves the placeholder untouched
(empty content, empty sources) — the apology is applied only when the
stream ends with a thrown error and no token text was accumulated; whatever
partial token text was accumulated before a thrown error is kept. -/
theorem c3_stream_truncation_amended (msgs : List Message) (sel : List String)
    (q : String) (chunks : List String) :
    ((handleSendMessage msgs sel q
        { openOk := true, chunks := [], readError := false }).1
      = msgs ++ [userMessage q, emptyAssistant]) ∧
    (tokenConcat (decodeChunks chunks) ≠ "" →
      lastContent (handleSendMessage msgs sel q
          { openOk := true, chunks := chunks, readError := true }).1
        = tokenConcat (decodeChunks chunks)) ∧
    (tokenConcat (decodeChunks chunks) = "" →
      lastContent (handleSendMessage msgs sel q
          { openOk := true, chunks := chunks, readError := true }).1
        = apologyText) := by
  refine ⟨?_, ?_, ?_⟩
  · rw [handleSendMessage_shape]
    rfl
  · intro h
    rw [handleSendMessage_shape, lastContent_append_two,
      sessionFinalMsg_readError_content, if_neg h]
  · intro h
    rw [handleSendMessage_shape, lastContent_append_two,
      sessionFinalMsg_readError_content, if_pos h]

/-- Witness for C3: a truncated stream that delivered the token `"Hi"`
before the read error keeps `"Hi"` as the final content. -/
theorem c3_stream_truncation_amended_witness :
    lastContent (handleSendMessage [] [] "q"
        { openOk := true,
          chunks := ["data: \x7b\"type\":\"token\",\"content\":\"Hi\"\x7d\n"],
          readError := true }).1
      = tokenConcat (decodeChunks ["data: \x7b\"type\":\"token\",\"content\":\"Hi\"\x7d\n"]) :=
  (c3_stream_truncation_amended [] [] "q"
    ["data: \x7b\"type\":\"token\",\"content\":\"Hi\"\x7d\n"]).2.1 (by decide)

/-- C5: for a completed session (transport opened, stream ended cleanly),
the final assistant content equals the concatenation, in arrival order, of
the text contributed by the `Token` frames the decoder emitted, starting
from the empty placeholder; `Done` frames never change the content. -/
theorem c5_token_round_trip (msgs : List Message) (sel : List String)
    (q : String) (chunks : List String) :
    lastContent (handleSendMessage msgs sel q
        { openOk := true, chunks := chunks, readError := false }).1
      = tokenConcat (decodeChunks chunks) := by
  rw [handleSendMessage_shape, lastContent_append_two]
  exact foldl_frameUpd_emptyAssistant_content chunks

/-- C7: the outgoing streaming request carries `null` (unscoped) as
`document_names` exactly when the selection is empty, and the current
ordered selection otherwise; Scenario A's submit with an empty selection is
unscoped. -/
theorem c7_unscoped_snapshot (msgs : List Message) (sel : List String)
    (q : String) (t : Transport) :
    ((handleSendMessage msgs sel q t).2 = buildRequest q sel) ∧
    (sel = [] → (handleSendMessage msgs sel q t).2.document_names = none) ∧
    (sel ≠ [] → (handleSendMessage msgs sel q t).2.document_names = some sel) ∧
    (handleSendMessage msgs [] "What was my highest expense?" t).2.document_names
      = none := by
  have hreq : ∀ sel' q', (handleSendMessage msgs sel' q' t).2 = buildRequest q' sel' := by
    intro sel' q'
    obtain ⟨o, c, r⟩ := t
    cases o <;> rfl
  refine ⟨hreq sel q, ?_, ?_, ?_⟩
  · intro h
    subst h
    rw [hreq]
    rfl
  · intro h
    rw [hreq]
    simp [buildRequest, List.length_pos.2 h]
  · rw [hreq]
    rfl

/-- Witness for C7: a non-empty selection is carried verbatim. -/
theorem c7_unscoped_snapshot_witness :
    (handleSendMessage [] ["a.pdf"] "q"
        { openOk := true, chunks := [], readError := false }).2.document_names
      = some ["a.pdf"] :=
  (c7_unscoped_snapshot [] ["a.pdf"] "q"
    { openOk := true, chunks := [], readError := false }).2.2.1 (by decide)

/-- C8: per-line fault tolerance of the decoder.  The per-chunk loop equals
the per-line semantics `lineFrame`; a line without the `data: ` prefix is
discarded silently; a prefixed line whose payload fails to parse yields
nothing (the error is caught and logged); a parsed payload whose
discriminator is neither `token` nor `done` is ignored; and a bad line
never stops the lines around it from being processed. -/
theorem c8_malformed_frame_tolerance :
    (∀ chunk : String,
      chunkFrames chunk = (chunkLines chunk).filterMap lineFrame) ∧
    (∀ line : String, hasDataMarker line = false → lineFrame line = none) ∧
    (∀ line : String, hasDataMarker line = true →
      jsonParse (String.mk (line.data.drop 6)) = none → lineFrame line = none) ∧
    (∀ (line : String) (data : Json),
      jsonParse (String.mk (line.data.drop 6)) = some data →
      getField data "type" ≠ some (Json.str "token") →
      getField data "type" ≠ some (Json.str "done") →
      lineFrame line = none) ∧
    (∀ (pre post : List String) (bad : String), lineFrame bad = none →
      (pre ++ bad :: post).filterMap lineFrame
        = pre.filterMap lineFrame ++ post.filterMap lineFrame) := by
  refine ⟨?_, ?_, ?_, ?_, ?_⟩
  · intro chunk
    exact filter_then_dispatch (chunkLines chunk)
  · intro line h
    simp [lineFrame, h]
  · intro line h hp
    simp [lineFrame, h, parseFrameData, hp]
  · intro line data hp ht hd
    by_cases h : hasDataMarker line
    · simp only [lineFrame, h, if_true, parseFrameData, hp]
      cases hgf : getField data "type" with
      | none => rfl
      | some j =>
        cases j with
        | str t =>
          have ht' : t ≠ "token" := fun h' => ht (by rw [hgf, h'])
          have hd' : t ≠ "done" := fun h' => hd (by rw [hgf, h'])
          simp [ht', hd']
        | null => rfl
        | bool b => rfl
        | num n => rfl
        | arr xs => rfl
        | obj fs => rfl
    · simp [lineFrame, h]
  · intro pre post bad hbad
    induction pre with
    | nil => simp [List.filterMap_cons, hbad]
    | cons p ps ih =>
      cases hp : lineFrame p <;> simp [List.filterMap_cons, hp, ih]

/-- Witness for C8: a line with the prefix but a truncated JSON payload is
skipped, and the surrounding lines are still processed. -/
theorem c8_malformed_frame_tolerance_witness :
    (["data: \x7b\"type\":\"token\",\"content\":\"A\"\x7d", "data: \x7b\"type\":\"tok",
        "data: \x7b\"type\":\"token\",\"content\":\"B\"\x7d"].filterMap lineFrame
      = ["data: \x7b\"type\":\"token\",\"content\":\"A\"\x7d"].filterMap lineFrame
          ++ ["data: \x7b\"type\":\"token\",\"content\":\"B\"\x7d"].filterMap lineFrame) :=
  c8_malformed_frame_tolerance.2.2.2.2
    ["data: \x7b\"type\":\"token\",\"content\":\"A\"\x7d"]
    ["data: \x7b\"type\":\"token\",\"content\":\"B\"\x7d"]
    "data: \x7b\"type\":\"tok" (by rfl)

/-- C9: every submitted question materializes an assistant entry directly
after the appended user message; on transport open failure, and on a
thrown mid-stream error with no accumulated token text, its content is the
fixed apology string — a user message is never left unanswered. -/
theorem c9_placeholder_materialization (msgs : List Message) (sel : List String)
    (q : String) (t : Transport) :
    ((handleSendMessage msgs sel q t).1
      = msgs ++ [userMessage q, sessionFinalMsg t]) ∧
    (sessionFinalMsg t).role = Role.assistant ∧
    (t.openOk = false → (sessionFinalMsg t).content = apologyText) ∧
    (t.openOk = true → t.readError = true → tokenConcat (decodeChunks t.chunks) = "" →
      (sessionFinalMsg t).content = apologyText) := by
  refine ⟨handleSendMessage_shape msgs sel q t, sessionFinalMsg_role t, ?_, ?_⟩
  · intro h
    obtain ⟨o, c, r⟩ := t
    cases o with
    | false => rfl
    | true => exact absurd h (by simp)
  · intro ho hr hc
    obtain ⟨o, c, r⟩ := t
    cases o with
    | false => exact absurd ho (by simp)
    | true =>
      cases r with
      | false => exact absurd hr (by simp)
      | true =>
        simp only at hc
        rw [sessionFinalMsg_readError_content, if_pos hc]

/-- Witness for C9: an open failure materializes the apology. -/
theorem c9_placeholder_materialization_witness :
    (sessionFinalMsg { openOk := false, chunks := [], readError := false }).content
      = apologyText :=
  (c9_placeholder_materialization [] [] "q"
    { openOk := false, chunks := [], readError := false }).2.2.1 (by decide)

end FinQuery
